import Mathlib

/-!
Shallow embedding of the ViperMonkey evaluation core
(`vipermonkey/core/vba_context.py` and `vipermonkey/core/vba_object.py`).

The embedding models Python strings as Lean `String`s (ASCII payloads),
Python dicts as association lists with first-match lookup and in-place
update, and Python runtime values by the inductive type `Value` below.
Python's `str.lower`, `str.strip`, `str.replace`, `str.startswith`,
`str.endswith` and the `in` substring test are re-implemented over
`List Char` so that every definition reduces inside the kernel.
-/

namespace VM

/-- Model of Python `str.lower` on a single ASCII character (the names
handled by the context are ASCII). -/
def lowerChar (c : Char) : Char :=
  if c.toNat ≥ 65 ∧ c.toNat ≤ 90 then Char.ofNat (c.toNat + 32) else c

/-- Model of Python `str.lower`. -/
def lower (s : String) : String := ⟨s.data.map lowerChar⟩

/-- Python whitespace characters stripped by `str.strip()`. -/
def isPySpace (c : Char) : Bool :=
  c = ' ' ∨ c = '\t' ∨ c = '\n' ∨ c = '\x0b' ∨ c = '\x0c' ∨ c = '\r'

/-- Model of Python `str.strip()` (no argument form). -/
def pyStrip (s : String) : String :=
  ⟨((s.data.dropWhile isPySpace).reverse.dropWhile isPySpace).reverse⟩

/-- First index at which `sub` occurs in a list, if any
(Python `str.index` / `str.find`). -/
def findSubIdx (sub : List Char) : List Char → Option Nat
  | [] => if sub = [] then some 0 else none
  | c :: rest =>
    if sub.isPrefixOf (c :: rest) then some 0
    else (findSubIdx sub rest).map (· + 1)

/-- Python substring containment (`sub in s`). -/
def strContains (s sub : String) : Bool := (findSubIdx sub.data s.data).isSome

/-- Python `str.endswith`. -/
def strEndsWith (s suf : String) : Bool := suf.data.isSuffixOf s.data

/-- Python `str.startswith`. -/
def strStartsWith (s pre : String) : Bool := pre.data.isPrefixOf s.data

/-- Worker for `str.replace`: scans left to right; `skip` counts characters
of a previous match still to be consumed.  Replaces every non-overlapping
occurrence of `old` by `new`, exactly like Python `str.replace(old, new)`
for non-empty `old`. -/
def replaceGo (old new : List Char) : Nat → List Char → List Char
  | _, [] => []
  | k + 1, _ :: rest => replaceGo old new k rest
  | 0, c :: rest =>
    if old ≠ [] ∧ old.isPrefixOf (c :: rest) then
      new ++ replaceGo old new (old.length - 1) rest
    else
      c :: replaceGo old new 0 rest

/-- Model of Python `str.replace(old, new)` for non-empty `old` (every use
in the source has a non-empty pattern). -/
def strReplace (s old new : String) : String :=
  ⟨replaceGo old.data new.data 0 s.data⟩

/-- First-match association-list lookup (Python `dict[k]` / `in`). -/
def lookupKey {β : Type} : List (String × β) → String → Option β
  | [], _ => none
  | (k, v) :: rest, k' => if k = k' then some v else lookupKey rest k'

/-- In-place association-list update (Python `dict[k] = v`): overwrites the
first binding of `k` or appends a new one. -/
def setKey {β : Type} : List (String × β) → String → β → List (String × β)
  | [], k, v => [(k, v)]
  | (k', v') :: rest, k, v =>
    if k' = k then (k, v) :: rest else (k', v') :: setKey rest k v

/-- Association-list deletion (Python `del dict[k]`). -/
def removeKey {β : Type} : List (String × β) → String → List (String × β)
  | [], _ => []
  | (k', v') :: rest, k =>
    if k' = k then rest else (k', v') :: removeKey rest k

/-- The Python runtime values the core passes around: strings, integers,
`None`, Sub/Function definitions (objects carrying a `statements`
attribute), `datetime` values and other opaque objects.  The payloads of
procedures, times and foreign objects play no role in the claims, so they
are collapsed to markers; their Python `str()` forms are abstracted by
fixed placeholder reprs in `pyStr` (a real repr is never equal to any of
the sentinel strings the code compares against). -/
inductive Value where
  | vStr : String → Value
  | vInt : Int → Value
  | vNone : Value
  | vProc : Value
  | vTime : Value
  | vOther : Value
deriving DecidableEq, Repr

open Value

/-- Model of Python `str(v)`. -/
def pyStr : Value → String
  | vStr s => s
  | vInt n => toString n
  | vNone => "None"
  | vProc => "<procedure object>"
  | vTime => "<datetime object>"
  | vOther => "<object>"

/-- `is_procedure` (vba_context.py): checks whether a VBA object carries a
`statements` attribute, i.e. is a Sub or Function definition. -/
def is_procedure (v : Value) : Bool :=
  match v with
  | vProc => true
  | _ => false

/-- Value of a base64 alphabet character. -/
def b64Val (c : Char) : Option Nat :=
  if c.toNat ≥ 65 ∧ c.toNat ≤ 90 then some (c.toNat - 65)
  else if c.toNat ≥ 97 ∧ c.toNat ≤ 122 then some (c.toNat - 97 + 26)
  else if c.toNat ≥ 48 ∧ c.toNat ≤ 57 then some (c.toNat - 48 + 52)
  else if c = '+' then some 62
  else if c = '/' then some 63
  else none

/-- Decode a run of base64 digit values (padding already removed) into
bytes, four digits to three bytes; a final group of three digits yields two
bytes and a final group of two yields one, per RFC 4648. -/
def decodeQuads : List Nat → Option (List Nat)
  | [] => some []
  | [_] => none
  | [a, b] => some [(a * 4 + b / 16) % 256]
  | [a, b, c] => some [(a * 4 + b / 16) % 256, (b % 16 * 16 + c / 4) % 256]
  | a :: b :: c :: d :: rest =>
    (decodeQuads rest).map
      (fun tl => (a * 4 + b / 16) % 256 :: (b % 16 * 16 + c / 4) % 256 ::
                 (c % 4 * 64 + d) % 256 :: tl)

/-- Model of Python 2 `base64.b64decode` on its defined inputs: characters
outside the alphabet are discarded (binascii behaviour), digits before the
first `=` are decoded, and a total digit-plus-padding count that is not a
multiple of four raises `binascii.Error` (modelled as `none`).  The decoded
byte string is returned as a Lean string of code points 0–255, matching the
Python 2 `str` result. -/
def b64decode (s : String) : Option String :=
  let cs := s.data.filter (fun c => (b64Val c).isSome ∨ c = '=')
  let digits := cs.takeWhile (fun c => c ≠ '=')
  let pads := cs.length - digits.length
  if (digits.length + pads) % 4 ≠ 0 then none
  else
    (decodeQuads (digits.filterMap b64Val)).map
      (fun bs => ⟨bs.map Char.ofNat⟩)

/-- Model of Python 2 `int(s)` on strings: optional surrounding whitespace,
an optional sign, then a non-empty run of decimal digits; anything else
raises `ValueError` (modelled as `none`). -/
def pyIntOfString (s : String) : Option Int :=
  let t := (pyStrip s).data
  let core : List Char → Option Int := fun ds =>
    if ds ≠ [] ∧ ds.all (fun c => c.toNat ≥ 48 ∧ c.toNat ≤ 57) then
      some (ds.foldl (fun a c => a * 10 + ((c.toNat : Int) - 48)) 0)
    else none
  match t with
  | '-' :: rest => (core rest).map (fun n => -n)
  | '+' :: rest => core rest
  | _ => core t

/-- An xlrd worksheet: the grid of cell values, rows of columns. -/
abbrev Sheet := List (List Value)

/-- An xlrd workbook: worksheets keyed by sheet name (`sheet_by_name`). -/
abbrev Workbook := List (String × Sheet)

/-- One entry of `Context.open_files`: the dict
`{"name": fname, "contents": [...bytes...]}`. -/
structure OpenFile where
  name : String
  contents : List Nat
deriving DecidableEq, Repr

/-- The `Context` of vba_context.py, restricted to the fields the claims
touch.  `engine.report_action` is modelled by the `actions` log;
`with_prefix` is named `withPfx`; `loaded_excel` is `loadedExcel`.  The
fields not modelled (`dll_func_true_names`, `tagged_blocks`, `loop_stack`,
`exit_func`, `engine`) are irrelevant to `get`/`set`/file handling. -/
structure Context where
  locals : List (String × Value)
  globals : List (String × Value)
  doc_vars : List (String × Value)
  types : List (String × String)
  withPfx : String
  open_files : List (String × OpenFile)
  closed_files : List (String × List Nat)
  loadedExcel : Option Workbook
  actions : List (String × String × String)
deriving DecidableEq, Repr

/-- The context every witness starts from: empty symbol tables, no `With`
prefix, no workbook. -/
def emptyContext : Context :=
  { locals := [], globals := [], doc_vars := [], types := [], withPfx := "",
    open_files := [], closed_files := [], loadedExcel := none, actions := [] }

/-- `Context._get` (vba_context.py 1541-1567): lowercases the name and
searches `locals`, then `globals`, then the process-wide `VBA_LIBRARY`
(passed as the `lib` argument); a miss in all three tiers raises `KeyError`
(modelled as `none`). -/
def Context.toGet (lib : List (String × Value)) (c : Context) (name : String) :
    Option Value :=
  match lookupKey c.locals (lower name) with
  | some v => some v
  | none =>
    match lookupKey c.globals (lower name) with
    | some v => some v
    | none => lookupKey lib (lower name)

/-- `Context.get` (vba_context.py 1569-1585): tries the `With`-prefixed
name, then the bare name, then the name with a trailing `"$"`; each attempt
uses `Context.toGet`. -/
def Context.get (lib : List (String × Value)) (c : Context) (name : String) :
    Option Value :=
  match Context.toGet lib c (c.withPfx ++ name) with
  | some v => some v
  | none =>
    match Context.toGet lib c name with
    | some v => some v
    | none => Context.toGet lib c (name ++ "$")

/-- Spec-side rendering of the `get` contract (spec §4.1): the nine
(name form, tier) lookups in their stated priority order. -/
def getSpecOrder (lib : List (String × Value)) (c : Context) (name : String) :
    List (Option Value) :=
  [ lookupKey c.locals (lower (c.withPfx ++ name)),
    lookupKey c.globals (lower (c.withPfx ++ name)),
    lookupKey lib (lower (c.withPfx ++ name)),
    lookupKey c.locals (lower name),
    lookupKey c.globals (lower name),
    lookupKey lib (lower name),
    lookupKey c.locals (lower (name ++ "$")),
    lookupKey c.globals (lower (name ++ "$")),
    lookupKey lib (lower (name ++ "$")) ]

/-- First hit of a list of lookups. -/
def firstHit : List (Option Value) → Option Value
  | [] => none
  | some v :: _ => some v
  | none :: rest => firstHit rest

/-- `Context.contains` (vba_context.py 1587-1594). -/
def Context.containsName (lib : List (String × Value)) (c : Context)
    (name : String) (localOnly : Bool) : Bool :=
  if localOnly then (lookupKey c.locals (lower name)).isSome
  else (Context.get lib c name).isSome

/-- The variable-store step of `Context.set` (vba_context.py 1640-1652):
lowercase the name; overwrite in `locals` if present there, else in
`globals` unless the global holds a procedure, else create in `locals`. -/
def Context.setVar (c : Context) (name : String) (value : Value) : Context :=
  match lookupKey c.locals (lower name) with
  | some _ => { c with locals := setKey c.locals (lower name) value }
  | none =>
    match lookupKey c.globals (lower name) with
    | some g =>
      if is_procedure g then
        { c with locals := setKey c.locals (lower name) value }
      else { c with globals := setKey c.globals (lower name) value }
    | none => { c with locals := setKey c.locals (lower name) value }

/-- The `types` bookkeeping of `Context.set` (vba_context.py 1654-1656):
record the declared type when the caller supplied one. -/
def Context.setTypes (c : Context) (n : String) (var_type : Option String) :
    Context :=
  match var_type with
  | some t => { c with types := setKey c.types n t }
  | none => c

/-- `Context.set` (vba_context.py 1639-1684), with explicit recursion fuel.
The recursive calls are the `With`-prefix propagation (with
`do_with_prefix=False`) and the `.text`/base64 enrichment; the code's
recursion depth is at most four (a prefixed name recurses once with the
flag cleared, and the enrichment writes a name ending in
`.nodetypedvalue`, which never re-triggers the `.text` branch), so any
fuel of at least four makes the model exact; fuel exhaustion returns the
context unchanged. -/
def Context.setF (lib : List (String × Value)) :
    Nat → Context → String → Value → Option String → Bool → Context
  | 0, c, _, _, _, _ => c
  | fuel + 1, c, name, value, var_type, doWithPfx =>
    let n := lower name
    let c2 := Context.setTypes (Context.setVar c n value) n var_type
    let c3 :=
      if doWithPfx ∧ c2.withPfx.length > 0 then
        Context.setF lib fuel c2 (c2.withPfx ++ n) value var_type false
      else c2
    if strEndsWith n ".text" then
      match Context.get lib c3 (strReplace n ".text" ".datatype") with
      | some dv =>
        if pyStrip (pyStr dv) = "bin.base64" then
          match b64decode (pyStrip (pyStr value)) with
          | some conv =>
            Context.setF lib fuel c3 (strReplace n ".text" ".nodetypedvalue")
              (vStr conv) none true
          | none => c3
        else c3
      | none => c3
    else c3

/-- The `With`-prefix propagation step of `set` (vba_context.py
1658-1662), as a named view of the corresponding part of
`Context.setF`. -/
def Context.prefixStepF (lib : List (String × Value)) (fuel : Nat)
    (c2 : Context) (n : String) (value : Value) (var_type : Option String)
    (doWithPfx : Bool) : Context :=
  if doWithPfx ∧ c2.withPfx.length > 0 then
    Context.setF lib fuel c2 (c2.withPfx ++ n) value var_type false
  else c2

/-- The `.text`/base64 enrichment step of `set` (vba_context.py
1664-1684), as a named view of the corresponding part of
`Context.setF`. -/
def Context.textStepF (lib : List (String × Value)) (fuel : Nat)
    (c3 : Context) (n : String) (value : Value) : Context :=
  if strEndsWith n ".text" then
    match Context.get lib c3 (strReplace n ".text" ".datatype") with
    | some dv =>
      if pyStrip (pyStr dv) = "bin.base64" then
        match b64decode (pyStrip (pyStr value)) with
        | some conv =>
          Context.setF lib fuel c3 (strReplace n ".text" ".nodetypedvalue")
            (vStr conv) none true
        | none => c3
      else c3
    | none => c3
  else c3

/-- One unfolding of `Context.setF`: the sequential composition of the
store, the type bookkeeping, the prefix propagation and the `.text`
enrichment. -/
theorem setF_succ (lib : List (String × Value)) (fuel : Nat) (c : Context)
    (name : String) (value : Value) (var_type : Option String)
    (doWithPfx : Bool) :
    Context.setF lib (fuel + 1) c name value var_type doWithPfx =
      Context.textStepF lib fuel
        (Context.prefixStepF lib fuel
          (Context.setTypes (Context.setVar c (lower name) value)
            (lower name) var_type)
          (lower name) value var_type doWithPfx)
        (lower name) value := rfl

/-- `Context.set` with the Python default arguments
(`var_type=None`, `do_with_prefix=True`) and sufficient fuel. -/
def Context.set (lib : List (String × Value)) (c : Context) (name : String)
    (value : Value) : Context :=
  Context.setF lib 6 c name value none true

/-- `Context.open_file` (vba_context.py 1453-1463): registers an empty
byte buffer whose recorded display name is the handle itself. -/
def Context.open_file (c : Context) (fname : String) : Context :=
  { c with open_files := setKey c.open_files fname ⟨fname, []⟩ }

/-- A context whose globals hold a procedure definition under `"f"`. -/
def procCtx : Context := { emptyContext with globals := [("f", vProc)] }

/-- A context inside `With` block scope with the prefix `"foo."`. -/
def fooCtx : Context := { emptyContext with withPfx := "foo." }

/-- The state after `open_file("#1")` followed by file writes appending
the bytes 104, 105 to the handle's buffer (the write methods themselves
are outside the claims, so the buffer is populated directly). -/
def Context.openPlusBytes : Context :=
  { emptyContext with open_files := [("#1", ⟨"#1", [104, 105]⟩)] }

/-- `Context.dump_file` (vba_context.py 1469-1498).  If `file_id` is not an
open handle the failure is only logged and the context is returned
unchanged.  Otherwise the byte buffer moves to `closed_files` under the
recorded display name with every `#` removed, the handle is deleted from
`open_files`, and the SHA-256 digest of the raw bytes is reported through
`engine.report_action` (the `actions` log).  The digest function itself is
abstracted as the parameter `sha256hex`; the on-disk artifact dump is
filesystem I/O guarded by `out_dir` (None by default) and is outside the
model. -/
def Context.dump_file (sha256hex : List Nat → String) (c : Context)
    (file_id : String) : Context :=
  match lookupKey c.open_files file_id with
  | none => c
  | some f =>
    let name := strReplace f.name "#" ""
    { c with
      closed_files := setKey c.closed_files name f.contents,
      open_files := removeKey c.open_files file_id,
      actions := c.actions ++
        [("Dropped File Hash", sha256hex f.contents, "File Name: " ++ name)] }

/-- Exceptions that can escape the resolution engine: the fatal
recursion/time guard of `eval_arg` (`limits`), the uncaught `ValueError`
of the Excel-reference extraction (`extraction`), and the host recursion
limit hit by an unbounded indirection chain (`fuelOut`, the model's fuel
exhaustion). -/
inductive EvalErr where
  | limits
  | extraction
  | fuelOut
deriving DecidableEq, Repr

/-- `Context.get_doc_var` (vba_context.py 1607-1635): lowercases the name;
on a direct miss tries the name as a regular variable and recurses on its
value, then falls back to the wildcard `"*"` doc var; fuel is spent only on
the indirection recursion (which the Python code does not bound). -/
def Context.getDocVar (lib : List (String × Value)) :
    Nat → Context → Value → Except EvalErr (Option Value)
  | fuel, c, v =>
    match v with
    | vStr s =>
      match lookupKey c.doc_vars (lower s) with
      | some r => .ok (some r)
      | none =>
        match Context.get lib c (lower s) with
        | some vv =>
          if vv ≠ vNone then
            match fuel with
            | 0 => .error .fuelOut
            | fuel' + 1 => Context.getDocVar lib fuel' c vv
          else .ok (lookupKey c.doc_vars "*")
        | none => .ok (lookupKey c.doc_vars "*")
    | _ => .ok none

/-- The two fatal errors of the safety governor (vba_object.py raises
`RuntimeError` with distinct messages for the recursion and the time
limit). -/
inductive LimitErr where
  | recursionLimit
  | timeLimit
deriving DecidableEq, Repr

/-- `limits_exceeded` (vba_object.py 77-101).  The call-stack depth
(`len(getouterframes(currentframe()))`) and the clock are host state,
passed here as the `level` and `now` arguments; `recursionLimit` is
`sys.getrecursionlimit()` and `maxEmulationTime` the module-level
deadline.  `level > recursionLimit * .75` is computed exactly:
`.75` is a power-of-two fraction, so the float comparison equals
`4 * level > 3 * recursionLimit` over the integers. -/
def limits_exceeded (level recursionLimit : Nat) (maxEmulationTime : Option Int)
    (now : Int) (throwErr : Bool) : Except LimitErr Bool :=
  let recursion_exceeded : Bool := decide (3 * recursionLimit < 4 * level)
  let time_exceeded : Bool :=
    match maxEmulationTime with
    | none => false
    | some t => decide (t < now)
  if recursion_exceeded ∧ throwErr then .error .recursionLimit
  else if time_exceeded ∧ throwErr then .error .timeLimit
  else .ok (recursion_exceeded ∨ time_exceeded)

/-- `coerce_to_str` (vba_object.py 514-524): `None` and VBA `NULL` become
the empty string, everything else its Python string form. -/
def coerce_to_str (v : Value) : String :=
  if v = vNone ∨ v = vStr "NULL" then "" else pyStr v

/-- `coerce_to_int` (vba_object.py 535-545): `None` and VBA `NULL` become
0; otherwise Python `int(obj)`, which raises (`none`) on non-numeric
strings and non-numeric objects. -/
def coerce_to_int (v : Value) : Option Int :=
  if v = vNone ∨ v = vStr "NULL" then some 0
  else
    match v with
    | vInt n => some n
    | vStr s => pyIntOfString s
    | _ => none

/-- `coerce_args_to_str` (vba_object.py 526-533). -/
def coerce_args_to_str (args : List Value) : List Value :=
  args.map (fun a => vStr (coerce_to_str a))

/-- `coerce_args_to_int` (vba_object.py 547-552); the first coercion
failure propagates (`none`). -/
def coerce_args_to_int : List Value → Option (List Value)
  | [] => some []
  | a :: rest =>
    match coerce_to_int a with
    | none => none
    | some n =>
      match coerce_args_to_int rest with
      | none => none
      | some tl => some (vInt n :: tl)

/-- The two coercion targets of `coerce_args`. -/
inductive CoerceTy where
  | tstr
  | tint
deriving DecidableEq, Repr

/-- The type-scanning loop of `coerce_args` (vba_object.py 572-592):
walks the argument list skipping `"NULL"`, records the type of the first
string/integer argument, clears the all-null flag at the first non-null
argument, and breaks at the first argument of any other type.  Returns
(first_type, have_other_type, all_null). -/
def scanTypes : Option CoerceTy → Bool → List Value →
    Option CoerceTy × Bool × Bool
  | ft, allNull, [] => (ft, false, allNull)
  | ft, allNull, a :: rest =>
    if a = vStr "NULL" then scanTypes ft allNull rest
    else
      match a with
      | vStr _ => scanTypes (if ft = none then some .tstr else ft) false rest
      | vInt _ => scanTypes (if ft = none then some .tint else ft) false rest
      | _ => (ft, true, false)

/-- `coerce_args` (vba_object.py 554-631).  Note two source quirks kept
faithfully: an all-`NULL` list is coerced to integers, and the
`if (args == "NULL")` null-replacement inside both branches compares the
whole *list* against a string, so it never fires (the `NULL` elements are
nevertheless mapped by `coerce_to_str`/`coerce_to_int`). -/
def coerce_args (orig_args : List Value) : Option (List Value) :=
  if orig_args = [] then some []
  else
    let args := orig_args.map (fun a => if a = vNone then vStr "NULL" else a)
    let scanned := scanTypes none true args
    let ft := if scanned.2.2 then some CoerceTy.tint else scanned.1
    if scanned.2.1 then some args
    else
      match ft with
      | none => some args
      | some .tstr => some (coerce_args_to_str args)
      | some .tint => coerce_args_to_int args

/-- An argument value that is neither a string nor an integer
("third, unrecognized type" in the spec's words). -/
def isOtherTy : Value → Bool
  | vStr _ => false
  | vInt _ => false
  | _ => true

/-- The coercion target named by a value. -/
def tagOf : Value → CoerceTy
  | vInt _ => .tint
  | _ => .tstr

/-- Spec-side rendering of the §4.3 bulk-coercion policy, amended where the
code differs: `None` maps to `NULL` first; any unrecognized type returns
the (`None`-mapped) list unchanged; an all-`NULL` list is coerced to
integers (every element 0); otherwise every element coerces to the type of
the first non-`NULL` element (string coercion is total, integer coercion
propagates a parse failure). -/
def coerceSpec (orig_args : List Value) : Option (List Value) :=
  if orig_args = [] then some []
  else
    let args := orig_args.map (fun a => if a = vNone then vStr "NULL" else a)
    if args.any isOtherTy then some args
    else
      match args.find? (fun a => a ≠ vStr "NULL") with
      | none => some (args.map (fun _ => vInt 0))
      | some a =>
        match tagOf a with
        | .tstr => some (coerce_args_to_str args)
        | .tint => coerce_args_to_int args

/-- `excel_col_letter_to_index` (vba_object.py 74-75):
`reduce(lambda s,a: s*26 + ord(a) - ord('A') + 1, x, 0) - 1`. -/
def excel_col_letter_to_index (x : String) : Int :=
  (x.data.foldl (fun s a => s * 26 + ((a.toNat : Int) - 65 + 1)) 0) - 1

/-- Spec-side column value: bijective base-26 read most significant digit
first, digit(`c`) = `c - 'A' + 1`; the zero-based index is this value
minus one. -/
def colLetterValue : List Char → Int
  | [] => 0
  | c :: rest => ((c.toNat : Int) - 65 + 1) * 26 ^ rest.length + colLetterValue rest

/-- `xlrd` cell access `sheet.cell_value(row, col)` with exception on a
bad index (modelled as `none`; the source catches it).  A negative index
(Python sequence semantics would wrap) is likewise treated as a miss —
no claim exercises negative indices. -/
def cellValue (sh : Sheet) (row col : Int) : Option Value :=
  if row < 0 ∨ col < 0 then none
  else (sh.get? row.toNat).bind (fun r => r.get? col.toNat)

/-- The guarded body of `_read_from_excel` (vba_object.py 203-230): load
the sheet by name, split the cell reference into its letter and digit
characters, convert both to zero-based indices and read the cell as a
string; every failure is caught and logged (`none`). -/
def tryReadCell (wb : Option Workbook) (sheet_name cell_index : String) :
    Option Value := do
  let wb' ← wb
  let sh ← lookupKey wb' sheet_name
  let col : List Char := cell_index.data.filter Char.isAlpha
  let row : List Char := cell_index.data.filter (fun c => !c.isAlpha)
  let rowN ← pyIntOfString ⟨row⟩
  let v ← cellValue sh (rowN - 1) (excel_col_letter_to_index ⟨col⟩)
  pure (vStr (pyStr v))

/-- The parenthesized-argument extraction of `_read_from_excel`
(vba_object.py 192-200): find `key` in the lowercased text, take the span
up to the next `)` from the original text, strip it and drop quote
characters.  A missing `)` is the uncaught `ValueError` of the source
(`none` here, surfaced as `EvalErr.extraction`). -/
def extractParenArg (argLower argOrig : List Char) (key : List Char) :
    Option String :=
  match findSubIdx key argLower with
  | none => none
  | some i =>
    let start := i + key.length
    match findSubIdx [')'] (argLower.drop start) with
    | none => none
    | some e =>
      some ⟨(pyStrip ⟨(argOrig.drop start).take e⟩).data.filter
              (fun c => c ≠ '"' ∧ c ≠ '\'')⟩

/-- `_read_from_excel` (vba_object.py 178-230): fires only when the
lowercased text contains `thisworkbook.`, `sheets(` and `range(`;
extraction failures raise out of the function, everything inside the read
is caught and falls through (`ok none`). -/
def readFromExcel (wb : Option Workbook) (arg : String) :
    Except EvalErr (Option Value) :=
  let tl := (lower arg).data
  if strContains (lower arg) "thisworkbook." ∧ strContains (lower arg) "sheets(" ∧
      strContains (lower arg) "range(" then
    match extractParenArg tl arg.data "sheets(".data with
    | none => .error .extraction
    | some sheet_name =>
      match extractParenArg tl arg.data "range(".data with
      | none => .error .extraction
      | some cell_index => .ok (tryReadCell wb sheet_name cell_index)
  else .ok none

/-- Truth value of `re.match(r"[a-zA-Z_][\w\d]*", s) is not None`
(vba_object.py 497).  `re.match` anchors only at the start of the text and
the tail class may match the empty string, so the test holds exactly when
the first character is an ASCII letter or an underscore. -/
def identHead (s : String) : Bool :=
  match s.data with
  | [] => false
  | c :: _ =>
    (c.toNat ≥ 65 ∧ c.toNat ≤ 90) ∨ (c.toNat ≥ 97 ∧ c.toNat ≤ 122) ∨ c = '_'

/-- The final two steps of `eval_arg` (vba_object.py 496-505): the
uninitialized-variable default `"NULL"` under `treat_as_var_name`, else
the argument unchanged. -/
def tailRes (arg : Value) (treat : Bool) : Value :=
  if treat ∧ identHead (pyStr arg) then vStr "NULL" else arg

/-- The text after the last `.` (`s[s.rindex(".")+1:]`); every caller has
already checked that a dot is present. -/
def afterLastDot (s : String) : String :=
  ⟨(s.data.reverse.takeWhile (fun c => c ≠ '.')).reverse⟩

/-- The dotted-segment peeling loop of `eval_arg` (vba_object.py 374-388):
while a dot remains, try the whole remaining text as a variable, then drop
the leftmost segment.  Each pass shortens the text, so any fuel above the
text length is exact. -/
def peelF (lib : List (String × Value)) (c : Context) :
    Nat → List Char → Option Value
  | 0, _ => none
  | fuel + 1, l =>
    match findSubIdx ['.'] l with
    | none => none
    | some i =>
      match Context.get lib c ⟨l⟩ with
      | some v => some v
      | none => peelF lib c fuel (l.drop (i + 1))

/-- The wildcard form-variable probe of `eval_arg` (vba_object.py
484-493): try `wild ++ "0"` … in order, first hit wins. -/
def probeWild (lib : List (String × Value)) (c : Context) (wild : String) :
    List Nat → Option Value
  | [] => none
  | i :: rest =>
    match Context.get lib c (wild ++ toString i) with
    | some v => some v
    | none => probeWild lib c wild rest

/-- The document-metadata fallbacks of `eval_arg` (vba_object.py 416-493),
reached after the function-name attempt: `activedocument.item(...)`
against the module-level metadata object (`meta`), then
`thisdocument.builtindocumentproperties(...)`,
`activedocument.variables(...)` and
`activedocument.customdocumentproperties(...)` against the doc-var store,
then the wildcard form-variable probe, then the `tailRes` default. -/
def metaFallback (lib : List (String × Value))
    (meta : Option (List (String × Value))) (c : Context) (fuel : Nat)
    (s : String) (treat : Bool) : Except EvalErr Value :=
  let tmp := pyStrip (lower s)
  if strStartsWith tmp "activedocument.item(" then
    let prop := pyStrip (strReplace (strReplace
      (strReplace tmp "activedocument.item(" "") ")" "") "'" "")
    match meta with
    | none => .ok (vStr "")
    | some m =>
      match lookupKey m (lower prop) with
      | none => .ok (vStr "")
      | some r => .ok r
  else
    let step2 : Except EvalErr Value :=
      let afterVars : Except EvalErr Value :=
        let afterCustom : Except EvalErr Value :=
          match findSubIdx ['.'] tmp.data with
          | none => .ok (tailRes (vStr s) treat)
          | some i =>
            let wild : String := ⟨tmp.data.take i⟩ ++ "*"
            match probeWild lib c wild (List.range 11) with
            | some v => .ok v
            | none => .ok (tailRes (vStr s) treat)
        if strStartsWith tmp "activedocument.customdocumentproperties(" then
          let var := pyStrip (strReplace (strReplace (strReplace (strReplace
            (strReplace (strReplace tmp
              "activedocument.customdocumentproperties(" "")
              ")" "") "'" "") "\"" "") ".value" "") "(" "")
          match Context.getDocVar lib fuel c (vStr var) with
          | .error e => .error e
          | .ok (some v) => .ok v
          | .ok none => afterCustom
        else afterCustom
      if strStartsWith tmp "activedocument.variables(" then
        let var := pyStrip (strReplace (strReplace (strReplace (strReplace
          (strReplace (strReplace tmp "activedocument.variables(" "")
            ")" "") "'" "") "\"" "") ".value" "") "(" "")
        match Context.getDocVar lib fuel c (vStr var) with
        | .error e => .error e
        | .ok (some v) => .ok v
        | .ok none => afterVars
      else afterVars
    if strStartsWith tmp "thisdocument.builtindocumentproperties(" then
      let var := pyStrip (strReplace (strReplace
        (strReplace tmp "thisdocument.builtindocumentproperties(" "")
        ")" "") "'" "")
      match Context.getDocVar lib fuel c (vStr var) with
      | .error e => .error e
      | .ok (some v) => .ok v
      | .ok none => step2
    else step2

/-- Whether a value models a `VBA_Object`/`VbaLibraryFunc` instance
(something exposing `.eval`): only procedure objects do in this value
universe — strings, numbers, `None`, times and foreign data do not. -/
def isVbaObject (v : Value) : Bool :=
  match v with
  | vProc => true
  | _ => false

/-- The string-argument resolution chain of `eval_arg` (vba_object.py
316-493): plain variable lookup, the `.nodetypedvalue`/base64 and
`.selectedItem` hacks, doc-var lookup, dotted-segment peeling, the
function-name attempt (through the `recur` callback; any exception it
raises — including a host recursion-limit hit — is swallowed by the
source's `except Exception` and resolution continues), and the metadata
fallbacks. -/
def evalArgStr (lib : List (String × Value))
    (meta : Option (List (String × Value))) (c : Context) (fuel : Nat)
    (recur : Value → Except EvalErr Value) (s : String) (treat : Bool) :
    Except EvalErr Value :=
  match Context.get lib c s with
  | some r => .ok r
  | none =>
    if strContains (lower s) ".nodetypedvalue" then
      match Context.get lib c
          (strReplace (lower s) ".nodetypedvalue" ".text") with
      | some val =>
        (match b64decode (pyStr val) with
         | some dec => .ok (vStr (strReplace dec "\x00" ""))
         | none => .ok val)
      | none => .ok (tailRes (vStr s) treat)
    else if strContains (lower s) ".selecteditem" then
      match Context.get lib c
          (strReplace (lower s) ".selecteditem" ".rapt.value") with
      | some val => .ok val
      | none => .ok (tailRes (vStr s) treat)
    else if strContains (lower s) "." then
      match Context.getDocVar lib fuel c (vStr s) with
      | .error e => .error e
      | .ok (some dv) => .ok dv
      | .ok none =>
        match peelF lib c (s.data.length + 1) s.data with
        | some v => .ok v
        | none =>
          match Context.get lib c (afterLastDot (lower s)) with
          | some func =>
            (match recur func with
             | .ok r => if r ≠ func then .ok r else .ok (vStr s)
             | .error _ => metaFallback lib meta c fuel s treat)
          | none => metaFallback lib meta c fuel s treat
    else .ok (tailRes (vStr s) treat)

/-- `eval_arg` (vba_object.py 284-505).  Host state is passed explicitly:
`lib` is the process-wide `VBA_LIBRARY`, `meta` the module-level document
metadata, `limitsHit` the verdict of the entry `limits_exceeded()` check
(which raises `RuntimeError` when true), and `objEval` the evaluation
method of AST nodes (`arg.eval(context)`, outside this core per spec
§4.5).  `_read_from_object_text` requires a `MemberAccessExpression` AST
instance and therefore returns `None` on every value of this universe.
Fuel is spent only on the function-name recursion of `evalArgStr`, whose
exhaustion models the host recursion limit. -/
def evalArg (lib : List (String × Value))
    (meta : Option (List (String × Value))) (limitsHit : Bool)
    (objEval : Value → Value) :
    Nat → Context → Value → Bool → Except EvalErr Value
  | fuel, c, arg, treat =>
    if limitsHit then .error .limits
    else
      match readFromExcel c.loadedExcel (pyStr arg) with
      | .error e => .error e
      | .ok (some v) => .ok v
      | .ok none =>
        if isVbaObject arg then .ok (objEval arg)
        else
          match arg with
          | vStr s =>
            evalArgStr lib meta c fuel
              (fun func =>
                match fuel with
                | 0 => .error .fuelOut
                | fuel' + 1 =>
                  evalArg lib meta limitsHit objEval fuel' c func true)
              s treat
          | _ => .ok (tailRes arg treat)

/-- A handle to a `Context` whose `globals` dict lives in a shared store:
Python shares the parent's dict by object reference
(`self.globals = context.globals`), so object identity matters for the
construction claim and is modelled by an index into `GlobalsStore`. -/
structure CtxHandle where
  globalsRef : Nat
deriving DecidableEq, Repr

/-- The heap of `globals` dicts (one per independent context family). -/
abbrev GlobalsStore := List (List (String × Value))

/-- The dict a handle points at. -/
def storeGet (s : GlobalsStore) (r : Nat) : List (String × Value) :=
  (s.get? r).getD []

/-- In-place mutation of the dict a handle points at. -/
def storeSet (s : GlobalsStore) (r : Nat) (d : List (String × Value)) :
    GlobalsStore :=
  s.set r d

/-- An abridged but representative selection of the built-in constants
`Context.__init__` writes into `self.globals` (vba_context.py 159-1442
seeds hundreds of entries with exactly this shape; the overwrite argument
is uniform in the list, so the model carries the entries the claims name
plus a sample of each family).  Keys are stored lowercased, as in
`self.globals["Now".lower()] = ...`. -/
def contextSeeds : List (String × Value) :=
  [ ("now", vTime),
    ("application.username", vStr "--"),
    ("vbdirectory", vStr "vbDirectory"),
    ("vba.vbdirectory", vStr "vbDirectory"),
    ("vba.keycodeconstants.vbdirectory", vStr "vbDirectory"),
    ("vbkeylbutton", vInt 1),
    ("vba.vbkeylbutton", vInt 1),
    ("vba.keycodeconstants.vbkeylbutton", vInt 1),
    ("vbkeyrbutton", vInt 2),
    ("vba.vbkeyrbutton", vInt 2),
    ("vba.keycodeconstants.vbkeyrbutton", vInt 2),
    ("vbkeya", vInt 65),
    ("vba.vbkeya", vInt 65),
    ("vba.keycodeconstants.vbkeya", vInt 65),
    ("vbkeyb", vInt 66),
    ("xlprimary", vInt 1),
    ("xlcontext", vInt (-5002)) ]

/-- Write every seed into a globals dict, in order (repeated
`self.globals[k] = v`). -/
def seedGlobals (g : List (String × Value)) : List (String × Value) :=
  contextSeeds.foldl (fun m kv => setKey m kv.1 kv.2) g

/-- `Context.__init__` with the `context=parent` argument (vba_context.py
108-126 and 159 ff.): the child aliases the parent's `globals` dict
(`self.globals = context.globals` copies the pointer) and then seeds the
built-in constants into that shared dict. -/
def mkChildContext (parent : CtxHandle) (s : GlobalsStore) :
    CtxHandle × GlobalsStore :=
  (⟨parent.globalsRef⟩,
   storeSet s parent.globalsRef (seedGlobals (storeGet s parent.globalsRef)))

/-! ### Infrastructure lemmas -/

theorem char_toNat_ofNat_lt (n : Nat) (h : n < 256) : (Char.ofNat n).toNat = n := by
  have hv : n.isValidChar := Or.inl (by omega)
  simp only [Char.ofNat, hv, dif_pos, Char.ofNatAux]
  exact BitVec.toNat_ofNatLt _ _

theorem lowerChar_idem (c : Char) : lowerChar (lowerChar c) = lowerChar c := by
  by_cases h : c.toNat ≥ 65 ∧ c.toNat ≤ 90
  · have h32 : (Char.ofNat (c.toNat + 32)).toNat = c.toNat + 32 :=
      char_toNat_ofNat_lt _ (by omega)
    have h1 : lowerChar c = Char.ofNat (c.toNat + 32) := by
      simp [lowerChar, h.1, h.2]
    have h2 : ¬ ((Char.ofNat (c.toNat + 32)).toNat ≥ 65 ∧
        (Char.ofNat (c.toNat + 32)).toNat ≤ 90) := by
      rw [h32]; omega
    rw [h1]
    simp only [lowerChar, if_neg h2]
  · have h1 : lowerChar c = c := by simp only [lowerChar, if_neg h]
    rw [h1, h1]

theorem lower_data (s : String) : (lower s).data = s.data.map lowerChar := rfl

theorem lower_idem (s : String) : lower (lower s) = lower s := by
  apply String.ext
  simp only [lower_data, List.map_map]
  exact List.map_congr_left (fun c _ => lowerChar_idem c)

theorem lower_append (s t : String) : lower (s ++ t) = lower s ++ lower t := by
  apply String.ext
  simp [lower_data, String.data_append]

theorem lower_length (s : String) : (lower s).data.length = s.data.length := by
  simp [lower_data]

theorem lookupKey_setKey {β : Type} (m : List (String × β)) (k k' : String) (v : β) :
    lookupKey (setKey m k v) k' = if k = k' then some v else lookupKey m k' := by
  induction m with
  | nil => simp [setKey, lookupKey]
  | cons h t ih =>
    obtain ⟨a, b⟩ := h
    by_cases hak : a = k
    · subst hak
      by_cases hk : a = k'
      · simp [setKey, lookupKey, hk]
      · simp [setKey, lookupKey, hk]
    · simp only [setKey, hak, if_false, lookupKey]
      by_cases hak' : a = k'
      · subst hak'
        have hne : ¬ k = a := fun hh => hak hh.symm
        simp [lookupKey, hne]
      · simp [lookupKey, hak', ih]

theorem lookupKey_eq_none_iff {β : Type} (m : List (String × β)) (k : String) :
    lookupKey m k = none ↔ ∀ p ∈ m, p.1 ≠ k := by
  induction m with
  | nil => simp [lookupKey]
  | cons h t ih =>
    obtain ⟨a, b⟩ := h
    by_cases hak : a = k <;> simp [lookupKey, hak, ih]

theorem lookupKey_removeKey_nodup {β : Type} (m : List (String × β)) (k : String)
    (hn : (m.map Prod.fst).Nodup) : lookupKey (removeKey m k) k = none := by
  induction m with
  | nil => simp [removeKey, lookupKey]
  | cons h t ih =>
    obtain ⟨a, b⟩ := h
    simp only [List.map_cons, List.nodup_cons] at hn
    by_cases hak : a = k
    · subst hak
      simp only [removeKey, if_pos rfl]
      rw [lookupKey_eq_none_iff]
      intro p hp hpk
      exact hn.1 (hpk ▸ (List.mem_map_of_mem Prod.fst hp))
    · simp only [removeKey, if_neg hak, lookupKey, if_neg hak]
      exact ih hn.2

theorem lookupKey_append {β : Type} (m1 m2 : List (String × β)) (k : String) :
    lookupKey (m1 ++ m2) k =
      match lookupKey m1 k with
      | some v => some v
      | none => lookupKey m2 k := by
  induction m1 with
  | nil => simp [lookupKey]
  | cons h t ih =>
    obtain ⟨a, b⟩ := h
    by_cases hak : a = k
    · simp [lookupKey, hak]
    · simp [lookupKey, hak, ih]

theorem firstHit_append (l1 l2 : List (Option Value)) :
    firstHit (l1 ++ l2) =
      match firstHit l1 with
      | some v => some v
      | none => firstHit l2 := by
  induction l1 with
  | nil => simp [firstHit]
  | cons h t ih => cases h <;> simp [firstHit, ih]

theorem firstHit_eq_none_iff (l : List (Option Value)) :
    firstHit l = none ↔ ∀ o ∈ l, o = none := by
  induction l with
  | nil => simp [firstHit]
  | cons h t ih => cases h <;> simp [firstHit, ih]

theorem toGet_eq_firstHit (lib : List (String × Value)) (c : Context) (n : String) :
    Context.toGet lib c n =
      firstHit [lookupKey c.locals (lower n), lookupKey c.globals (lower n),
                lookupKey lib (lower n)] := by
  cases h1 : lookupKey c.locals (lower n) with
  | some v => simp [Context.toGet, h1, firstHit]
  | none =>
    cases h2 : lookupKey c.globals (lower n) with
    | some v => simp [Context.toGet, h1, h2, firstHit]
    | none =>
      cases h3 : lookupKey lib (lower n) <;>
        simp [Context.toGet, h1, h2, h3, firstHit]

/-! ### Claim theorems -/

/-- C1: `Context.get` tries, in order, the `With`-prefixed name, the name
unmodified, and the name with a trailing `"$"`; each form is looked up
first in `locals`, then in `globals`, then in the process-wide built-in
library, the first hit of these nine lookups being returned; `get` fails
(`KeyError`, modelled as `none`) exactly when all three name forms miss in
all three tiers. -/
theorem claim_C1_get_resolution_order (lib : List (String × Value))
    (c : Context) (name : String) :
    Context.get lib c name = firstHit (getSpecOrder lib c name) ∧
    (Context.get lib c name = none ↔
      ∀ o ∈ getSpecOrder lib c name, o = none) := by
  have hdec : getSpecOrder lib c name =
      [lookupKey c.locals (lower (c.withPfx ++ name)),
       lookupKey c.globals (lower (c.withPfx ++ name)),
       lookupKey lib (lower (c.withPfx ++ name))] ++
      ([lookupKey c.locals (lower name),
        lookupKey c.globals (lower name),
        lookupKey lib (lower name)] ++
       [lookupKey c.locals (lower (name ++ "$")),
        lookupKey c.globals (lower (name ++ "$")),
        lookupKey lib (lower (name ++ "$"))]) := rfl
  have hmain : Context.get lib c name = firstHit (getSpecOrder lib c name) := by
    rw [hdec, firstHit_append, firstHit_append,
        ← toGet_eq_firstHit lib c (c.withPfx ++ name),
        ← toGet_eq_firstHit lib c name,
        ← toGet_eq_firstHit lib c (name ++ "$")]
    rfl
  exact ⟨hmain, by rw [hmain, firstHit_eq_none_iff]⟩

/-- C7: `limits_exceeded` reports a violation exactly when the call-stack
depth strictly exceeds 0.75 of the configured recursion limit or, when a
deadline is configured, the clock is past it; in fatal mode it raises
under exactly those conditions; at depth 76 of limit 100 the fatal check
raises and at depth 50 it does not. -/
theorem claim_C7_limits_exceeded (level recursionLimit : Nat)
    (maxEmulationTime : Option Int) (now : Int) :
    ((limits_exceeded level recursionLimit maxEmulationTime now false = .ok true) ↔
      ((level : ℚ) > 3 / 4 * (recursionLimit : ℚ) ∨
        ∃ t, maxEmulationTime = some t ∧ now > t)) ∧
    ((∃ e, limits_exceeded level recursionLimit maxEmulationTime now true = .error e) ↔
      ((level : ℚ) > 3 / 4 * (recursionLimit : ℚ) ∨
        ∃ t, maxEmulationTime = some t ∧ now > t)) ∧
    limits_exceeded 76 100 none 0 true = .error .recursionLimit ∧
    limits_exceeded 50 100 none 0 true = .ok false := by
  have hfrac : ((level : ℚ) > 3 / 4 * (recursionLimit : ℚ)) ↔
      3 * recursionLimit < 4 * level := by
    rw [gt_iff_lt, show ((3 : ℚ) / 4 * (recursionLimit : ℚ)) = 3 * recursionLimit / 4 by ring]
    rw [div_lt_iff₀ (by norm_num)]
    constructor
    · intro h
      have h2 : ((3 * recursionLimit : ℕ) : ℚ) < ((4 * level : ℕ) : ℚ) := by
        push_cast
        linarith
      exact_mod_cast h2
    · intro h
      have h2 : ((3 * recursionLimit : ℕ) : ℚ) < ((4 * level : ℕ) : ℚ) := by
        exact_mod_cast h
      push_cast at h2
      linarith
  refine ⟨?_, ?_, rfl, rfl⟩
  · cases hm : maxEmulationTime with
    | none =>
      by_cases hr : 3 * recursionLimit < 4 * level <;>
        simp [limits_exceeded, hr, hfrac]
    | some t =>
      by_cases hr : 3 * recursionLimit < 4 * level <;>
        by_cases ht : t < now <;>
          simp [limits_exceeded, hr, ht, hfrac]
  · cases hm : maxEmulationTime with
    | none =>
      by_cases hr : 3 * recursionLimit < 4 * level <;>
        simp [limits_exceeded, hr, hfrac]
    | some t =>
      by_cases hr : 3 * recursionLimit < 4 * level <;>
        by_cases ht : t < now <;>
          simp [limits_exceeded, hr, ht, hfrac]

theorem scanTypes_haveOther (l : List Value) : ∀ ft an,
    (scanTypes ft an l).2.1 = l.any isOtherTy := by
  induction l with
  | nil => intro ft an; simp [scanTypes]
  | cons a rest ih =>
    intro ft an
    by_cases ha : a = vStr "NULL"
    · subst ha
      simp [scanTypes, isOtherTy, ih]
    · cases a with
      | vStr s => simp [scanTypes, ha, isOtherTy, ih]
      | vInt n => simp [scanTypes, ha, isOtherTy, ih]
      | vNone => simp [scanTypes, ha, isOtherTy]
      | vProc => simp [scanTypes, ha, isOtherTy]
      | vTime => simp [scanTypes, ha, isOtherTy]
      | vOther => simp [scanTypes, ha, isOtherTy]

theorem scanTypes_allNull (l : List Value) : ∀ ft an,
    (scanTypes ft an l).2.2 = (an && l.all (fun a => decide (a = vStr "NULL"))) := by
  induction l with
  | nil => intro ft an; simp [scanTypes]
  | cons a rest ih =>
    intro ft an
    by_cases ha : a = vStr "NULL"
    · subst ha
      simp [scanTypes, ih]
    · cases a with
      | vStr s => simp [scanTypes, ha, ih]
      | vInt n => simp [scanTypes, ha, ih]
      | vNone => simp [scanTypes, ha]
      | vProc => simp [scanTypes, ha]
      | vTime => simp [scanTypes, ha]
      | vOther => simp [scanTypes, ha]

theorem scanTypes_firstType (l : List Value) : ∀ ft an,
    l.all (fun a => !isOtherTy a) →
    (scanTypes ft an l).1 =
      (match ft with
       | some x => some x
       | none => (l.find? (fun a => a ≠ vStr "NULL")).map tagOf) := by
  induction l with
  | nil =>
    intro ft an _
    cases ft <;> simp [scanTypes]
  | cons a rest ih =>
    intro ft an hno
    simp only [List.all_cons, Bool.and_eq_true] at hno
    by_cases ha : a = vStr "NULL"
    · subst ha
      rw [show scanTypes ft an (vStr "NULL" :: rest) = scanTypes ft an rest from by
        simp [scanTypes]]
      rw [ih ft an hno.2]
      cases ft <;> simp
    · cases a with
      | vStr s =>
        rw [show scanTypes ft an (vStr s :: rest) =
            scanTypes (if ft = none then some .tstr else ft) false rest from by
          simp [scanTypes, ha]]
        rw [ih _ false hno.2]
        cases ft <;> simp [ha, tagOf]
      | vInt n =>
        rw [show scanTypes ft an (vInt n :: rest) =
            scanTypes (if ft = none then some .tint else ft) false rest from by
          simp [scanTypes, ha]]
        rw [ih _ false hno.2]
        cases ft <;> simp [ha, tagOf]
      | vNone => simp [isOtherTy] at hno
      | vProc => simp [isOtherTy] at hno
      | vTime => simp [isOtherTy] at hno
      | vOther => simp [isOtherTy] at hno

theorem coerce_args_to_int_all_null (l : List Value)
    (h : l.all (fun a => decide (a = vStr "NULL"))) :
    coerce_args_to_int l = some (l.map (fun _ => vInt 0)) := by
  induction l with
  | nil => simp [coerce_args_to_int]
  | cons a rest ih =>
    simp only [List.all_cons, Bool.and_eq_true, decide_eq_true_eq] at h
    obtain ⟨h1, h2⟩ := h
    subst h1
    have hr := ih (by simpa using h2)
    simp [coerce_args_to_int, coerce_to_int, hr]

/-- C5 counterexample: the claim says a list with no non-`NULL` typed
element is returned unchanged, but `coerce_args(["NULL"])` yields `[0]`
(the source treats an all-`NULL` list as integers). -/
theorem claim_C5_counterexample :
    coerce_args [vStr "NULL"] = some [vInt 0] ∧
      coerce_args [vStr "NULL"] ≠ some [vStr "NULL"] := by
  exact ⟨rfl, by decide⟩

/-- C5 (amended): `coerce_args` maps `None` to `NULL` first; any element
of a type other than string or integer leaves the (`None`-mapped) list
unchanged; a list whose elements are all `NULL` is coerced to integers
(every element 0); otherwise every element is coerced to the type of the
first non-`NULL` element, `NULL` becoming `""` or `0` respectively (a
non-numeric string in an integer coercion propagates `ValueError`).  This
is the functional characterization `coerceSpec`. -/
theorem claim_C5_coerce_args (args : List Value) :
    coerce_args args = coerceSpec args := by
  by_cases hnil : args = []
  · subst hnil; rfl
  · unfold coerce_args coerceSpec
    simp only [hnil, if_false]
    set m := args.map (fun a => if a = vNone then vStr "NULL" else a) with hm
    by_cases hoth : m.any isOtherTy
    · simp [scanTypes_haveOther m none true, hoth]
    · simp only [scanTypes_haveOther m none true, hoth, if_false,
        Bool.false_eq_true]
      have hmo : m.all (fun a => !isOtherTy a) := by
        rw [List.all_eq_true]
        intro x hx
        cases hox : isOtherTy x with
        | false => simp
        | true => exact absurd (List.any_eq_true.mpr ⟨x, hx, hox⟩) hoth
      by_cases hall : m.all (fun a => decide (a = vStr "NULL"))
      · have hfind : m.find? (fun a => a ≠ vStr "NULL") = none := by
          rw [List.find?_eq_none]
          intro x hx
          have := List.all_eq_true.mp hall x hx
          simp_all
        rw [scanTypes_allNull m none true]
        simp only [hall, Bool.and_true, if_true, hfind]
        exact coerce_args_to_int_all_null m hall
      · rw [scanTypes_allNull m none true]
        simp only [hall, Bool.and_false, if_false, Bool.true_and]
        rw [scanTypes_firstType m none true hmo]
        have hex : ∃ x ∈ m, ¬(x = vStr "NULL") := by
          by_contra hc
          push_neg at hc
          exact hall (List.all_eq_true.mpr (fun x hx => by
            simp [hc x hx]))
        have hfind : (m.find? (fun a => a ≠ vStr "NULL")).isSome := by
          rw [List.find?_isSome]
          obtain ⟨x, hx, hxn⟩ := hex
          exact ⟨x, hx, by simpa using hxn⟩
        obtain ⟨a, hfa⟩ := Option.isSome_iff_exists.mp hfind
        have hmem := List.mem_of_find?_eq_some hfa
        have hnotoa := List.all_eq_true.mp hmo a hmem
        rw [hfa]
        cases a with
        | vStr s => simp [tagOf]
        | vInt n => simp [tagOf]
        | vNone => simp [isOtherTy] at hnotoa
        | vProc => simp [isOtherTy] at hnotoa
        | vTime => simp [isOtherTy] at hnotoa
        | vOther => simp [isOtherTy] at hnotoa

theorem cellValue_nil (r c : Int) : cellValue ([] : Sheet) r c = none := by
  unfold cellValue
  split
  · rfl
  · simp

theorem colFold (l : List Char) : ∀ acc : Int,
    l.foldl (fun s a => s * 26 + ((a.toNat : Int) - 65 + 1)) acc =
      acc * 26 ^ l.length + colLetterValue l := by
  induction l with
  | nil => intro acc; simp [colLetterValue]
  | cons c rest ih =>
    intro acc
    simp only [List.foldl_cons, List.length_cons, colLetterValue]
    rw [ih]
    ring

/-- C8: the column letters of an extracted cell reference are converted by
bijective base-26 positional interpretation — digit `c - 'A' + 1`, value
minus one — so `'A'` maps to 0, `'Z'` to 25 and `'AA'` to 26; the row is
converted by parsing the digit characters and subtracting 1; and every
enumerated read failure (no workbook attached, missing sheet, unparsable
row) yields "no result" (`none`), falling through instead of raising. -/
theorem claim_C8_excel_cell_read :
    (∀ x : String, excel_col_letter_to_index x = colLetterValue x.data - 1) ∧
    excel_col_letter_to_index "A" = 0 ∧
    excel_col_letter_to_index "Z" = 25 ∧
    excel_col_letter_to_index "AA" = 26 ∧
    (∀ sn ci, tryReadCell none sn ci = none) ∧
    (∀ (wb : Workbook) sn ci, lookupKey wb sn = none →
      tryReadCell (some wb) sn ci = none) ∧
    (∀ (wb : Workbook) sn ci sh, lookupKey wb sn = some sh →
      pyIntOfString (String.mk (ci.data.filter (fun c => !c.isAlpha))) = none →
      tryReadCell (some wb) sn ci = none) ∧
    (∀ (wb : Workbook) sn ci sh rn, lookupKey wb sn = sh →
      pyIntOfString (String.mk (ci.data.filter (fun c => !c.isAlpha))) = some rn →
      tryReadCell (some wb) sn ci =
        (cellValue ((sh.getD []))
            (rn - 1)
            (excel_col_letter_to_index (String.mk (ci.data.filter Char.isAlpha)))).map
          (fun v => vStr (pyStr v))) := by
  refine ⟨?_, by decide, by decide, by decide, ?_, ?_, ?_, ?_⟩
  · intro x
    unfold excel_col_letter_to_index
    rw [colFold]
    simp
  · intro sn ci
    rfl
  · intro wb sn ci h
    simp [tryReadCell, h]
  · intro wb sn ci sh h hrow
    simp [tryReadCell, h, hrow]
  · intro wb sn ci sh rn h hrow
    cases sh with
    | none => simp [tryReadCell, h, hrow, cellValue_nil]
    | some grid =>
      simp only [tryReadCell, Option.bind_eq_bind, Option.some_bind, h, hrow,
        Option.getD_some]
      cases hc : cellValue grid (rn - 1)
          (excel_col_letter_to_index (String.mk (ci.data.filter Char.isAlpha))) <;>
        simp [hc]

/-- C8 witness: a one-cell workbook read through `tryReadCell` at `"A1"`
returns the cell rendered as a string. -/
theorem claim_C8_witness :
    lookupKey [("s", [[vInt 7]])] "s" = some [[vInt 7]] ∧
    pyIntOfString (String.mk ("A1".data.filter (fun c => !c.isAlpha))) = some 1 ∧
    tryReadCell (some [("s", [[vInt 7]])]) "s" "A1" = some (vStr "7") := by
  refine ⟨rfl, by decide, ?_⟩
  have h := claim_C8_excel_cell_read.2.2.2.2.2.2.2
    [("s", [[vInt 7]])] "s" "A1" (some [[vInt 7]]) 1 rfl (by decide)
  rw [h]
  rfl

/-- C9: `dump_file` on an open handle moves its byte buffer into
`closed_files` keyed by the recorded display name with every `#` stripped,
removes the handle from `open_files`, appends a reported action whose
parameter is the digest of the raw accumulated bytes (the digest function
is abstracted as `hash`), and touches nothing else; on a handle that is
not open the context is returned unchanged (the failure is only logged). -/
theorem claim_C9_dump_file (hash : List Nat → String) (c : Context)
    (fid : String) :
    (∀ f, lookupKey c.open_files fid = some f →
      lookupKey (Context.dump_file hash c fid).closed_files
          (strReplace f.name "#" "") = some f.contents ∧
      (Context.dump_file hash c fid).open_files = removeKey c.open_files fid ∧
      ((c.open_files.map Prod.fst).Nodup →
        lookupKey (Context.dump_file hash c fid).open_files fid = none) ∧
      (Context.dump_file hash c fid).actions = c.actions ++
        [("Dropped File Hash", hash f.contents,
          "File Name: " ++ strReplace f.name "#" "")] ∧
      (Context.dump_file hash c fid).locals = c.locals ∧
      (Context.dump_file hash c fid).globals = c.globals ∧
      (Context.dump_file hash c fid).doc_vars = c.doc_vars) ∧
    (lookupKey c.open_files fid = none → Context.dump_file hash c fid = c) := by
  constructor
  · intro f hf
    have hd : Context.dump_file hash c fid =
        { c with
          closed_files := setKey c.closed_files (strReplace f.name "#" "")
            f.contents,
          open_files := removeKey c.open_files fid,
          actions := c.actions ++
            [("Dropped File Hash", hash f.contents,
              "File Name: " ++ strReplace f.name "#" "")] } := by
      unfold Context.dump_file
      rw [hf]
    refine ⟨?_, ?_, ?_, ?_, ?_, ?_, ?_⟩
    · rw [hd]
      show lookupKey (setKey c.closed_files (strReplace f.name "#" "")
        f.contents) (strReplace f.name "#" "") = some f.contents
      rw [lookupKey_setKey]
      simp
    · rw [hd]
    · intro hn
      rw [hd]
      exact lookupKey_removeKey_nodup _ _ hn
    · rw [hd]
    · rw [hd]
    · rw [hd]
    · rw [hd]
  · intro hf
    simp [Context.dump_file, hf]

/-- C9 witness: opening `"#1"`, accumulating two bytes and dumping moves
the buffer to `closed_files` under `"1"`, clears `open_files` and reports
the digest of exactly those bytes. -/
theorem claim_C9_witness :
    lookupKey (Context.openPlusBytes).open_files "#1" =
      some ⟨"#1", [104, 105]⟩ ∧
    lookupKey (Context.dump_file (fun _ => "digest") Context.openPlusBytes
        "#1").closed_files "1" = some [104, 105] ∧
    lookupKey (Context.dump_file (fun _ => "digest") Context.openPlusBytes
        "#1").open_files "#1" = none ∧
    (Context.dump_file (fun _ => "digest") Context.openPlusBytes "#1").actions =
      [("Dropped File Hash", "digest", "File Name: 1")] := by
  have h := (claim_C9_dump_file (fun _ => "digest") Context.openPlusBytes
    "#1").1 ⟨"#1", [104, 105]⟩ rfl
  exact ⟨rfl, h.1, h.2.2.1 (by decide), h.2.2.2.1⟩

theorem lookupKey_foldl_setKey (l : List (String × Value)) :
    ∀ (g : List (String × Value)) (k : String),
    lookupKey (l.foldl (fun m kv => setKey m kv.1 kv.2) g) k =
      match lookupKey l.reverse k with
      | some v => some v
      | none => lookupKey g k := by
  induction l with
  | nil => intro g k; simp [lookupKey]
  | cons a rest ih =>
    intro g k
    simp only [List.foldl_cons, List.reverse_cons]
    rw [ih, lookupKey_append]
    cases h : lookupKey rest.reverse k with
    | some v => simp
    | none =>
      by_cases hk : a.1 = k <;>
        simp [lookupKey_setKey, lookupKey, hk]

/-- C10: constructing a child `Context` from a parent aliases the parent's
`globals` dict (the same store reference) and then re-seeds every built-in
constant name into that shared dict, so whatever the emulated program had
stored there under one of the seeded lowercased names — for example
`"now"`, `"application.username"` or `"vbkeya"` — is overwritten with the
seed value whenever a child context is created. -/
theorem claim_C10_child_context (parent : CtxHandle) (s : GlobalsStore) :
    (mkChildContext parent s).1.globalsRef = parent.globalsRef ∧
    (parent.globalsRef < s.length →
      ∀ name ∈ contextSeeds.map Prod.fst,
        lookupKey (storeGet (mkChildContext parent s).2 parent.globalsRef) name =
          lookupKey contextSeeds.reverse name) ∧
    "now" ∈ contextSeeds.map Prod.fst ∧
    "application.username" ∈ contextSeeds.map Prod.fst ∧
    "vbkeya" ∈ contextSeeds.map Prod.fst := by
  refine ⟨rfl, ?_, by decide, by decide, by decide⟩
  intro hlt name hname
  simp only [mkChildContext, storeGet, storeSet]
  rw [List.get?_eq_getElem?, List.getElem?_set_self hlt, Option.getD_some]
  unfold seedGlobals
  rw [lookupKey_foldl_setKey]
  cases h : lookupKey contextSeeds.reverse name with
  | some v => rfl
  | none =>
    exfalso
    rw [lookupKey_eq_none_iff] at h
    rcases List.mem_map.mp hname with ⟨p, hp, hpk⟩
    exact h p (List.mem_reverse.mpr hp) hpk

/-- C10 witness: a parent whose shared globals dict maps `"now"` to a
program-stored value gets that entry overwritten with the seeded value
when a child context is constructed. -/
theorem claim_C10_witness :
    (0 : Nat) < ([[("now", vInt 99)]] : GlobalsStore).length ∧
    "now" ∈ contextSeeds.map Prod.fst ∧
    lookupKey (storeGet (mkChildContext ⟨0⟩ [[("now", vInt 99)]]).2 0) "now" =
      lookupKey contextSeeds.reverse "now" ∧
    lookupKey (storeGet (mkChildContext ⟨0⟩ [[("now", vInt 99)]]).2 0) "now" =
      some vTime := by
  refine ⟨by decide, by decide, ?_, by decide⟩
  exact (claim_C10_child_context ⟨0⟩ [[("now", vInt 99)]]).2.1 (by decide)
    "now" (by decide)

theorem replaceGo_length_ge (old new : List Char) (hlen : old.length ≤ new.length) :
    ∀ (s : List Char) (k : Nat), s.length - k ≤ (replaceGo old new k s).length := by
  intro s
  induction s with
  | nil => intro k; simp [replaceGo]
  | cons c rest ih =>
    intro k
    cases k with
    | succ k' =>
      have h := ih k'
      simp only [replaceGo, List.length_cons]
      omega
    | zero =>
      by_cases hp : old ≠ [] ∧ old.isPrefixOf (c :: rest)
      · have hle : old.length ≤ rest.length + 1 := by
          have := (List.isPrefixOf_iff_prefix.mp hp.2).length_le
          simpa using this
        have hone : 1 ≤ old.length := List.length_pos.mpr hp.1
        have h2 := ih (old.length - 1)
        simp only [replaceGo, if_pos hp, List.length_append, List.length_cons]
        omega
      · have h2 := ih 0
        simp only [replaceGo, if_neg hp, List.length_cons]
        omega

theorem replaceGo_length_gt (old new : List Char) (hne : old ≠ [])
    (hlen : old.length < new.length) :
    ∀ s : List Char, old.isSuffixOf s →
      s.length < (replaceGo old new 0 s).length := by
  intro s
  induction s with
  | nil =>
    intro hsuf
    exfalso
    have := (List.isSuffixOf_iff_suffix.mp hsuf).length_le
    cases old with
    | nil => exact hne rfl
    | cons a b => simp at this
  | cons c rest ih =>
    intro hsuf
    by_cases hp : old ≠ [] ∧ old.isPrefixOf (c :: rest)
    · have hle : old.length ≤ rest.length + 1 := by
        have := (List.isPrefixOf_iff_prefix.mp hp.2).length_le
        simpa using this
      have h2 := replaceGo_length_ge old new (le_of_lt hlen) rest (old.length - 1)
      have hone : 1 ≤ old.length := by
        cases old with
        | nil => exact absurd rfl hne
        | cons a b => simp
      simp only [replaceGo, if_pos hp, List.length_append, List.length_cons]
      omega
    · have hnp : ¬ old.isPrefixOf (c :: rest) = true := by
        intro hh
        exact hp ⟨hne, hh⟩
      have hsuf' : old.isSuffixOf rest = true := by
        rcases List.isSuffixOf_iff_suffix.mp hsuf with ⟨t, ht⟩
        cases t with
        | nil =>
          exfalso
          apply hnp
          rw [List.nil_append] at ht
          rw [ht]
          exact List.isPrefixOf_iff_prefix.mpr (List.prefix_refl _)
        | cons x xs =>
          have hx : xs ++ old = rest := by
            have := ht
            simp only [List.cons_append, List.cons.injEq] at this
            exact this.2
          exact List.isSuffixOf_iff_suffix.mpr ⟨xs, hx⟩
      have h2 := ih hsuf'
      simp only [replaceGo, if_neg hp, List.length_cons]
      omega

theorem strReplace_length_ge (s old new : String)
    (h : old.data.length ≤ new.data.length) :
    s.data.length ≤ (strReplace s old new).data.length := by
  have := replaceGo_length_ge old.data new.data h s.data 0
  simpa [strReplace] using this

theorem strReplace_length_gt (s old new : String) (hne : old.data ≠ [])
    (hlen : old.data.length < new.data.length)
    (hsuf : strEndsWith s old = true) :
    s.data.length < (strReplace s old new).data.length := by
  have := replaceGo_length_gt old.data new.data hne hlen s.data hsuf
  simpa [strReplace] using this

theorem setVar_globals_proc (c : Context) (n : String) (v : Value) (k : String)
    (g : Value) (hk : lookupKey c.globals k = some g)
    (hproc : is_procedure g = true) :
    lookupKey (Context.setVar c n v).globals k = some g := by
  unfold Context.setVar
  cases hl : lookupKey c.locals (lower n) with
  | some w => exact hk
  | none =>
    cases hg : lookupKey c.globals (lower n) with
    | none => exact hk
    | some g' =>
      by_cases hpg : is_procedure g' = true
      · simp only [hpg, if_true]
        exact hk
      · simp only [hpg, if_false, Bool.false_eq_true]
        by_cases hkk : lower n = k
        · subst hkk
          rw [hg] at hk
          cases hk
          exact absurd hproc hpg
        · rw [lookupKey_setKey]
          simp only [hkk, if_false]
          exact hk

theorem setVar_locals_other (c : Context) (n : String) (v : Value) (k : String)
    (hne : k ≠ lower n) :
    lookupKey (Context.setVar c n v).locals k = lookupKey c.locals k := by
  have hx : lookupKey (setKey c.locals (lower n) v) k = lookupKey c.locals k := by
    rw [lookupKey_setKey, if_neg (fun h => hne h.symm)]
  unfold Context.setVar
  cases hl : lookupKey c.locals (lower n) with
  | some w => exact hx
  | none =>
    cases hg : lookupKey c.globals (lower n) with
    | none => exact hx
    | some g' =>
      by_cases hpg : is_procedure g' = true <;> simp [hpg, hx]

theorem setVar_globals_other (c : Context) (n : String) (v : Value) (k : String)
    (hne : k ≠ lower n) :
    lookupKey (Context.setVar c n v).globals k = lookupKey c.globals k := by
  unfold Context.setVar
  cases hl : lookupKey c.locals (lower n) with
  | some w => rfl
  | none =>
    cases hg : lookupKey c.globals (lower n) with
    | none => rfl
    | some g' =>
      by_cases hpg : is_procedure g' = true
      · simp [hpg]
      · simp only [hpg, if_false, Bool.false_eq_true]
        rw [lookupKey_setKey, if_neg (fun h => hne h.symm)]

theorem setVar_withPfx (c : Context) (n : String) (v : Value) :
    (Context.setVar c n v).withPfx = c.withPfx := by
  unfold Context.setVar
  cases lookupKey c.locals (lower n) with
  | some w => rfl
  | none =>
    cases lookupKey c.globals (lower n) with
    | none => rfl
    | some g' => by_cases hpg : is_procedure g' = true <;> simp [hpg]

theorem setVar_doc_vars (c : Context) (n : String) (v : Value) :
    (Context.setVar c n v).doc_vars = c.doc_vars := by
  unfold Context.setVar
  cases lookupKey c.locals (lower n) with
  | some w => rfl
  | none =>
    cases lookupKey c.globals (lower n) with
    | none => rfl
    | some g' => by_cases hpg : is_procedure g' = true <;> simp [hpg]

theorem toGet_setVar_self (lib : List (String × Value)) (c : Context)
    (n m : String) (v : Value) (hm : lower m = lower n) :
    Context.toGet lib (Context.setVar c n v) m = some v := by
  unfold Context.toGet Context.setVar
  rw [hm]
  cases hl : lookupKey c.locals (lower n) with
  | some w =>
    simp [lookupKey_setKey]
  | none =>
    cases hg : lookupKey c.globals (lower n) with
    | none => simp [lookupKey_setKey]
    | some g' =>
      by_cases hpg : is_procedure g' = true
      · simp [hpg, lookupKey_setKey]
      · simp [hpg, lookupKey_setKey, hl]

theorem toGet_setVar_ne (lib : List (String × Value)) (c : Context)
    (n m : String) (v : Value) (hm : lower m ≠ lower n) :
    Context.toGet lib (Context.setVar c n v) m = Context.toGet lib c m := by
  unfold Context.toGet
  rw [setVar_locals_other c n v (lower m) hm,
      setVar_globals_other c n v (lower m) hm]

theorem setTypes_locals (c : Context) (n : String) (vt : Option String) :
    (Context.setTypes c n vt).locals = c.locals := by
  cases vt <;> rfl

theorem setTypes_globals (c : Context) (n : String) (vt : Option String) :
    (Context.setTypes c n vt).globals = c.globals := by
  cases vt <;> rfl

theorem setTypes_withPfx (c : Context) (n : String) (vt : Option String) :
    (Context.setTypes c n vt).withPfx = c.withPfx := by
  cases vt <;> rfl

theorem setTypes_doc_vars (c : Context) (n : String) (vt : Option String) :
    (Context.setTypes c n vt).doc_vars = c.doc_vars := by
  cases vt <;> rfl

/-- Preservation of a context property through `Context.prefixStepF`,
given preservation through the recursive `setF` at the inner fuel. -/
theorem prefixStepF_preserves (lib : List (String × Value)) (fuel : Nat)
    (L : Nat) (P : Context → Prop)
    (hrec : ∀ (c : Context) (n : String) (v : Value) (vt : Option String)
      (dwp : Bool), L ≤ n.data.length → P c →
      P (Context.setF lib fuel c n v vt dwp))
    (c2 : Context) (n : String) (value : Value) (vt : Option String)
    (dwp : Bool) (hL : L ≤ n.data.length) (hP : P c2) :
    P (Context.prefixStepF lib fuel c2 n value vt dwp) := by
  unfold Context.prefixStepF
  split
  · apply hrec _ _ _ _ _ _ hP
    rw [String.data_append]
    simp only [List.length_append]
    omega
  · exact hP

/-- Preservation of a context property through `Context.textStepF`,
given preservation through the recursive `setF` at the inner fuel. -/
theorem textStepF_preserves (lib : List (String × Value)) (fuel : Nat)
    (L : Nat) (P : Context → Prop)
    (hrec : ∀ (c : Context) (n : String) (v : Value) (vt : Option String)
      (dwp : Bool), L ≤ n.data.length → P c →
      P (Context.setF lib fuel c n v vt dwp))
    (c3 : Context) (n : String) (value : Value) (hL : L ≤ n.data.length)
    (hP : P c3) : P (Context.textStepF lib fuel c3 n value) := by
  unfold Context.textStepF
  repeat' split
  all_goals try exact hP
  apply hrec _ _ _ _ _ _ hP
  have := strReplace_length_ge n ".text" ".nodetypedvalue" (by decide)
  omega

/-- Every store `Context.setF` performs, at any recursion depth, goes
through `Context.setVar` or `Context.setTypes` with a name at least as
long as the name originally passed in: the `With` prefix only extends a
name, and the `.text` → `.nodetypedvalue` rewrite never shortens one. -/
theorem setF_preserves_len (lib : List (String × Value)) (L : Nat)
    (P : Context → Prop)
    (hVar : ∀ c n v, L ≤ n.data.length → P c → P (Context.setVar c n v))
    (hTy : ∀ c n vt, P c → P (Context.setTypes c n vt)) :
    ∀ (fuel : Nat) (c : Context) (name : String) (value : Value)
      (vt : Option String) (dwp : Bool),
      L ≤ name.data.length → P c →
      P (Context.setF lib fuel c name value vt dwp) := by
  intro fuel
  induction fuel with
  | zero =>
    intro c name value vt dwp hL hP
    exact hP
  | succ f ih =>
    intro c name value vt dwp hL hP
    rw [setF_succ]
    have hLn : L ≤ (lower name).data.length := by
      rw [lower_length]; exact hL
    apply textStepF_preserves lib f L P ih _ _ _ hLn
    apply prefixStepF_preserves lib f L P ih _ _ _ _ _ hLn
    exact hTy _ _ _ (hVar _ _ _ hLn hP)

theorem setVar_locals_self_proc (c : Context) (n : String) (v : Value)
    (g : Value) (hg : lookupKey c.globals (lower n) = some g)
    (hproc : is_procedure g = true) :
    lookupKey (Context.setVar c n v).locals (lower n) = some v := by
  unfold Context.setVar
  cases hl : lookupKey c.locals (lower n) with
  | some w => simp [lookupKey_setKey]
  | none => simp [hg, hproc, lookupKey_setKey]

theorem ne_of_data_length_ne {s t : String}
    (h : s.data.length ≠ t.data.length) : s ≠ t :=
  fun he => h (by rw [he])

/-- C2: when `globals` maps a lowercased name to a procedure value (an
object with executable statements), `set` with that name and any value
leaves the global entry untouched and stores the value in `locals`
instead — procedure definitions registered as globals are never
overwritten by `set`. -/
theorem claim_C2_set_never_overwrites_proc_global
    (lib : List (String × Value)) (c : Context) (name : String)
    (value : Value) (g : Value)
    (hg : lookupKey c.globals (lower name) = some g)
    (hproc : is_procedure g = true) :
    lookupKey (Context.set lib c name value).globals (lower name) = some g ∧
    lookupKey (Context.set lib c name value).locals (lower name) = some value := by
  constructor
  · exact setF_preserves_len lib 0
      (fun c' => lookupKey c'.globals (lower name) = some g)
      (fun c' n v _ hP => setVar_globals_proc c' n v (lower name) g hP hproc)
      (fun c' n vt hP => by
        show lookupKey (Context.setTypes c' n vt).globals (lower name) = some g
        rw [setTypes_globals]
        exact hP)
      6 c name value none true (Nat.zero_le _) hg
  · show lookupKey (Context.setF lib (5 + 1) c name value none true).locals
      (lower name) = some value
    rw [setF_succ]
    have hVar : ∀ (c' : Context) (n' : String) (v' : Value),
        (lower name).data.length + 1 ≤ n'.data.length →
        lookupKey c'.locals (lower name) = some value →
        lookupKey (Context.setVar c' n' v').locals (lower name) = some value := by
      intro c' n' v' hlen hP
      have hne : lower name ≠ lower n' := by
        apply ne_of_data_length_ne
        simp only [lower_length] at hlen ⊢
        omega
      rw [setVar_locals_other c' n' v' (lower name) hne]
      exact hP
    have hTy : ∀ (c' : Context) (n' : String) (vt' : Option String),
        lookupKey c'.locals (lower name) = some value →
        lookupKey (Context.setTypes c' n' vt').locals (lower name) = some value := by
      intro c' n' vt' hP
      rw [setTypes_locals]
      exact hP
    have h1 : lookupKey (Context.setVar c (lower name) value).locals
        (lower name) = some value := by
      have := setVar_locals_self_proc c (lower name) value g
        (by rw [lower_idem]; exact hg) hproc
      rw [lower_idem] at this
      exact this
    have h2 : lookupKey ((Context.setVar c (lower name) value).setTypes
        (lower name) none).locals (lower name) = some value := by
      rw [setTypes_locals]
      exact h1
    have h3 : lookupKey (Context.prefixStepF lib 5
        ((Context.setVar c (lower name) value).setTypes (lower name) none)
        (lower name) value none true).locals (lower name) = some value := by
      unfold Context.prefixStepF
      split
      next hcond =>
        apply setF_preserves_len lib ((lower name).data.length + 1)
          (fun c' => lookupKey c'.locals (lower name) = some value)
          hVar hTy 5 _ _ _ _ _ ?_ h2
        rw [String.data_append]
        simp only [List.length_append]
        have hwp : ((Context.setVar c (lower name) value).setTypes
            (lower name) none).withPfx.data.length > 0 := hcond.2
        omega
      next => exact h2
    generalize hc3 : Context.prefixStepF lib 5
      ((Context.setVar c (lower name) value).setTypes (lower name) none)
      (lower name) value none true = c3 at h3
    unfold Context.textStepF
    by_cases hends : strEndsWith (lower name) ".text" = true
    · rw [if_pos hends]
      cases hget : Context.get lib c3
          (strReplace (lower name) ".text" ".datatype") with
      | none => exact h3
      | some dv =>
        show lookupKey (if pyStrip (pyStr dv) = "bin.base64" then
            match b64decode (pyStrip (pyStr value)) with
            | some conv => Context.setF lib 5 c3
                (strReplace (lower name) ".text" ".nodetypedvalue")
                (vStr conv) none true
            | none => c3
          else c3).locals (lower name) = some value
        by_cases hbb : pyStrip (pyStr dv) = "bin.base64"
        · rw [if_pos hbb]
          cases hb : b64decode (pyStrip (pyStr value)) with
          | none => exact h3
          | some conv =>
            show lookupKey (Context.setF lib 5 c3
              (strReplace (lower name) ".text" ".nodetypedvalue")
              (vStr conv) none true).locals (lower name) = some value
            apply setF_preserves_len lib ((lower name).data.length + 1)
              (fun c' => lookupKey c'.locals (lower name) = some value)
              hVar hTy 5 _ _ _ _ _ ?_ h3
            have := strReplace_length_gt (lower name) ".text" ".nodetypedvalue"
              (by decide) (by decide) hends
            omega
        · rw [if_neg hbb]
          exact h3
    · rw [if_neg hends]
      exact h3

/-- C2 witness: a procedure registered as global `"f"` survives
`set("F", 1)`, while the 1 lands in `locals`. -/
theorem claim_C2_witness :
    lookupKey procCtx.globals (lower "F") = some vProc ∧
    is_procedure vProc = true ∧
    lookupKey (Context.set [] procCtx "F" (vInt 1)).globals (lower "F") =
      some vProc ∧
    lookupKey (Context.set [] procCtx "F" (vInt 1)).locals (lower "F") =
      some (vInt 1) := by
  have h := claim_C2_set_never_overwrites_proc_global [] procCtx "F" (vInt 1)
    vProc (by decide) rfl
  exact ⟨by decide, rfl, h.1, h.2⟩

/-- C4 counterexample: the claim's "case-insensitive" comparison is
case-sensitive in the code (`str(...).strip() == "bin.base64"`), so a
datatype of `"BIN.BASE64"` — equal to `"bin.base64"` up to case and
whitespace — produces no `.nodetypedvalue` enrichment. -/
theorem claim_C4_counterexample :
    lower (pyStrip (pyStr (vStr "BIN.BASE64"))) = "bin.base64" ∧
    Context.get []
      (Context.set []
        (Context.set [] emptyContext "x.datatype" (vStr "BIN.BASE64"))
        "x.text" (vStr "aGVsbG8="))
      "x.nodetypedvalue" = none := by
  constructor
  · rfl
  · rfl

/-- C4 (amended): when `set(name, value)` is called with a name ending in
`.text` and the sibling `.datatype` key resolves via `get` — on the state
holding the freshly stored value — to a string that equals `"bin.base64"`
after whitespace stripping but with exact case, the base64-decoding of
`value` is additionally stored under the `.nodetypedvalue` sibling and is
retrievable through `get`; a decoding failure only logs.  Stated for a
context with no active `With` prefix, as in the claim's scenario. -/
theorem claim_C4_text_base64_enrichment (lib : List (String × Value))
    (c : Context) (name : String) (value dv : Value) (conv : String)
    (h0 : c.withPfx = "")
    (h1 : strEndsWith (lower name) ".text" = true)
    (h2 : Context.get lib (Context.setVar c (lower name) value)
      (strReplace (lower name) ".text" ".datatype") = some dv)
    (h3 : pyStrip (pyStr dv) = "bin.base64")
    (h4 : b64decode (pyStrip (pyStr value)) = some conv)
    (h5 : strEndsWith (lower (strReplace (lower name) ".text" ".nodetypedvalue"))
      ".text" = false) :
    Context.get lib (Context.set lib c name value)
      (strReplace (lower name) ".text" ".nodetypedvalue") = some (vStr conv) := by
  have hpfx1 : Context.prefixStepF lib 5
      (Context.setTypes (Context.setVar c (lower name) value) (lower name) none)
      (lower name) value none true =
      Context.setVar c (lower name) value := by
    unfold Context.prefixStepF
    rw [if_neg]
    · rfl
    · rintro ⟨_, hlen⟩
      rw [setTypes_withPfx, setVar_withPfx, h0] at hlen
      simp at hlen
  show Context.get lib (Context.setF lib (5 + 1) c name value none true)
    (strReplace (lower name) ".text" ".nodetypedvalue") = some (vStr conv)
  rw [setF_succ, hpfx1]
  unfold Context.textStepF
  rw [if_pos h1, h2]
  show Context.get lib
    (if pyStrip (pyStr dv) = "bin.base64" then
      match b64decode (pyStrip (pyStr value)) with
      | some conv2 => Context.setF lib 5 (Context.setVar c (lower name) value)
          (strReplace (lower name) ".text" ".nodetypedvalue") (vStr conv2)
          none true
      | none => Context.setVar c (lower name) value
     else Context.setVar c (lower name) value)
    (strReplace (lower name) ".text" ".nodetypedvalue") = some (vStr conv)
  rw [if_pos h3, h4]
  show Context.get lib
    (Context.setF lib (4 + 1) (Context.setVar c (lower name) value)
      (strReplace (lower name) ".text" ".nodetypedvalue") (vStr conv) none true)
    (strReplace (lower name) ".text" ".nodetypedvalue") = some (vStr conv)
  rw [setF_succ]
  have hpfx2 : Context.prefixStepF lib 4
      (Context.setTypes
        (Context.setVar (Context.setVar c (lower name) value)
          (lower (strReplace (lower name) ".text" ".nodetypedvalue"))
          (vStr conv))
        (lower (strReplace (lower name) ".text" ".nodetypedvalue")) none)
      (lower (strReplace (lower name) ".text" ".nodetypedvalue"))
      (vStr conv) none true =
      Context.setVar (Context.setVar c (lower name) value)
        (lower (strReplace (lower name) ".text" ".nodetypedvalue"))
        (vStr conv) := by
    unfold Context.prefixStepF
    rw [if_neg]
    · rfl
    · rintro ⟨_, hlen⟩
      rw [setTypes_withPfx, setVar_withPfx, setVar_withPfx, h0] at hlen
      simp at hlen
  rw [hpfx2]
  unfold Context.textStepF
  rw [if_neg (by rw [h5]; exact Bool.false_ne_true)]
  unfold Context.get
  have hwp : (Context.setVar (Context.setVar c (lower name) value)
      (lower (strReplace (lower name) ".text" ".nodetypedvalue"))
      (vStr conv)).withPfx = "" := by
    rw [setVar_withPfx, setVar_withPfx, h0]
  rw [hwp]
  have happ : ("" : String) ++
      strReplace (lower name) ".text" ".nodetypedvalue" =
      strReplace (lower name) ".text" ".nodetypedvalue" := rfl
  rw [happ]
  rw [toGet_setVar_self lib _ _ _ _ (lower_idem _).symm]

/-- C4 witness: `set("x.datatype", "bin.base64")` (exact case) followed by
`set("x.text", base64("hello"))` makes `get("x.nodetypedvalue")` return
`"hello"`. -/
theorem claim_C4_witness :
    Context.get []
      (Context.set []
        (Context.set [] emptyContext "x.datatype" (vStr "bin.base64"))
        "x.text" (vStr "aGVsbG8="))
      "x.nodetypedvalue" = some (vStr "hello") := by
  have h := claim_C4_text_base64_enrichment []
    (Context.set [] emptyContext "x.datatype" (vStr "bin.base64"))
    "x.text" (vStr "aGVsbG8=") (vStr "bin.base64") "hello"
    (by rfl) (by rfl) (by rfl) (by rfl) (by rfl) (by rfl)
  have hkey : strReplace (lower "x.text") ".text" ".nodetypedvalue" =
      "x.nodetypedvalue" := by rfl
  rw [hkey] at h
  exact h

theorem length_pos_of_ne_empty (p : String) (h : p ≠ "") :
    0 < p.data.length := by
  cases p with
  | mk l =>
    cases l with
    | nil => exact absurd rfl h
    | cons a t => simp

/-- C6: with a non-empty `With` prefix active, `set(name, value)` with the
prefix flag enabled also stores the value under `prefix + name` (one
recursion with the flag cleared, so no double prefix), making both
`get(name)` and `get(prefix + name)` return the value.  The `.text`
side-conditions exclude the independent base64 enrichment, and the
`toGet` premise says the doubly-prefixed form (which `get` probes first)
was unbound beforehand. -/
theorem claim_C6_with_prefix_set (lib : List (String × Value)) (c : Context)
    (p name : String) (value : Value)
    (h0 : c.withPfx = p) (h1 : p ≠ "")
    (h2 : strEndsWith (lower name) ".text" = false)
    (h3 : strEndsWith (lower (p ++ lower name)) ".text" = false)
    (h4 : Context.toGet lib c (p ++ (p ++ name)) = none) :
    Context.get lib (Context.set lib c name value) name = some value ∧
    Context.get lib (Context.set lib c name value) (p ++ name) = some value := by
  have hplen : 0 < p.data.length := length_pos_of_ne_empty p h1
  have hres : Context.set lib c name value =
      Context.setVar (Context.setVar c (lower name) value)
        (lower (p ++ lower name)) value := by
    show Context.setF lib (5 + 1) c name value none true = _
    rw [setF_succ]
    have hwp2 : (Context.setTypes (Context.setVar c (lower name) value)
        (lower name) none).withPfx = p := by
      rw [setTypes_withPfx, setVar_withPfx, h0]
    have hpfx : Context.prefixStepF lib 5
        (Context.setTypes (Context.setVar c (lower name) value) (lower name) none)
        (lower name) value none true =
        Context.setF lib 5 (Context.setVar c (lower name) value)
          (p ++ lower name) value none false := by
      unfold Context.prefixStepF
      rw [if_pos]
      · rw [hwp2]
        rfl
      · refine ⟨rfl, ?_⟩
        rw [hwp2]
        exact hplen
    rw [hpfx]
    have hinner : Context.setF lib 5 (Context.setVar c (lower name) value)
        (p ++ lower name) value none false =
        Context.setVar (Context.setVar c (lower name) value)
          (lower (p ++ lower name)) value := by
      show Context.setF lib (4 + 1) _ _ _ _ _ = _
      rw [setF_succ]
      have hpfx2 : Context.prefixStepF lib 4
          (Context.setTypes
            (Context.setVar (Context.setVar c (lower name) value)
              (lower (p ++ lower name)) value)
            (lower (p ++ lower name)) none)
          (lower (p ++ lower name)) value none false =
          Context.setVar (Context.setVar c (lower name) value)
            (lower (p ++ lower name)) value := by
        unfold Context.prefixStepF
        rw [if_neg]
        · rfl
        · rintro ⟨hfalse, _⟩
          exact Bool.false_ne_true hfalse
      rw [hpfx2]
      unfold Context.textStepF
      rw [if_neg]
      intro hh
      rw [hh] at h3
      cases h3
    rw [hinner]
    unfold Context.textStepF
    rw [if_neg]
    intro hh
    rw [hh] at h2
    cases h2
  have hwpr : (Context.setVar (Context.setVar c (lower name) value)
      (lower (p ++ lower name)) value).withPfx = p := by
    rw [setVar_withPfx, setVar_withPfx, h0]
  have hm : lower (p ++ name) = lower (lower (p ++ lower name)) := by
    rw [lower_idem, lower_append, lower_append, lower_idem]
  constructor
  · rw [hres]
    unfold Context.get
    rw [hwpr, toGet_setVar_self lib _ _ (p ++ name) value hm]
  · rw [hres]
    unfold Context.get
    rw [hwpr]
    have hne1 : lower (p ++ (p ++ name)) ≠ lower (lower (p ++ lower name)) := by
      apply ne_of_data_length_ne
      simp only [lower_length, lower_data, String.data_append,
        List.length_append, List.length_map]
      omega
    have hne2 : lower (p ++ (p ++ name)) ≠ lower (lower name) := by
      apply ne_of_data_length_ne
      simp only [lower_length, lower_data, String.data_append,
        List.length_append, List.length_map]
      omega
    rw [toGet_setVar_ne lib _ _ _ _ hne1, toGet_setVar_ne lib _ _ _ _ hne2, h4,
      toGet_setVar_self lib _ _ (p ++ name) value hm]

/-- C6 witness: with prefix `"foo."` active, `set("bar", 1)` makes both
`get("bar")` and `get("foo.bar")` return 1. -/
theorem claim_C6_witness :
    fooCtx.withPfx = "foo." ∧
    Context.get [] (Context.set [] fooCtx "bar" (vInt 1)) "bar" =
      some (vInt 1) ∧
    Context.get [] (Context.set [] fooCtx "bar" (vInt 1)) "foo.bar" =
      some (vInt 1) := by
  have h := claim_C6_with_prefix_set [] fooCtx "foo." "bar" (vInt 1)
    rfl (by decide) (by decide) (by decide) (by decide)
  exact ⟨rfl, h.1, h.2⟩

theorem get_empty (n : String) : Context.get [] emptyContext n = none := rfl

theorem getDocVar_empty (fuel : Nat) (v : Value) :
    Context.getDocVar [] fuel emptyContext v = .ok none := by
  cases fuel <;> cases v <;> rfl

theorem peelF_empty : ∀ (fuel : Nat) (l : List Char),
    peelF [] emptyContext fuel l = none := by
  intro fuel
  induction fuel with
  | zero => intro l; rfl
  | succ f ih =>
    intro l
    show peelF [] emptyContext (f + 1) l = none
    unfold peelF
    cases h : findSubIdx ['.'] l with
    | none => rfl
    | some i => exact ih (l.drop (i + 1))

theorem probeWild_empty (wild : String) : ∀ l : List Nat,
    probeWild [] emptyContext wild l = none := by
  intro l
  induction l with
  | nil => rfl
  | cons i rest ih =>
    show probeWild [] emptyContext wild (i :: rest) = none
    unfold probeWild
    rw [get_empty]
    exact ih

theorem metaFallback_empty (fuel : Nat) (s : String) (treat : Bool)
    (hitem : strStartsWith (pyStrip (lower s)) "activedocument.item(" = false) :
    metaFallback [] none emptyContext fuel s treat =
      .ok (tailRes (vStr s) treat) := by
  unfold metaFallback
  rw [if_neg (by rw [hitem]; exact Bool.false_ne_true)]
  simp only [getDocVar_empty, probeWild_empty]
  repeat' split <;> try rfl

theorem readFromExcel_not_gate (wb : Option Workbook) (arg : String)
    (hgate : ¬(strContains (lower arg) "thisworkbook." = true ∧
      strContains (lower arg) "sheets(" = true ∧
      strContains (lower arg) "range(" = true)) :
    readFromExcel wb arg = .ok none := by
  unfold readFromExcel
  rw [if_neg hgate]

/-- C3 counterexample: `eval_arg("a!b", ctx, treat_as_var_name=True)` on an
empty context returns `"NULL"` although `"a!b"` is not a legal bare
identifier (the regex is matched unanchored at the end, so any text whose
first character is a letter qualifies); the claim requires the input to be
returned unchanged. -/
theorem claim_C3_counterexample :
    evalArg [] none false (fun v => v) 5 emptyContext (vStr "a!b") true =
      .ok (vStr "NULL") ∧
    (Except.ok (vStr "NULL") : Except EvalErr Value) ≠ .ok (vStr "a!b") := by
  refine ⟨rfl, fun h => ?_⟩
  exact absurd (Except.ok.inj h) (by decide)

theorem evalArgStr_empty (fuel : Nat) (recur : Value → Except EvalErr Value)
    (s : String) (treat : Bool)
    (hitem : strStartsWith (pyStrip (lower s)) "activedocument.item(" = false) :
    evalArgStr [] none emptyContext fuel recur s treat =
      .ok (tailRes (vStr s) treat) := by
  unfold evalArgStr
  rw [get_empty]
  by_cases h5 : strContains (lower s) ".nodetypedvalue" = true
  · rw [if_pos h5, get_empty]
  · rw [if_neg h5]
    by_cases h6 : strContains (lower s) ".selecteditem" = true
    · rw [if_pos h6, get_empty]
    · rw [if_neg h6]
      by_cases h7 : strContains (lower s) "." = true
      · rw [if_pos h7, getDocVar_empty, peelF_empty, get_empty,
          metaFallback_empty fuel s treat hitem]
      · rw [if_neg h7]

theorem evalArg_empty_fallback (objEval : Value → Value) (fuel : Nat)
    (s : String) (treat : Bool)
    (hgate : ¬(strContains (lower s) "thisworkbook." = true ∧
      strContains (lower s) "sheets(" = true ∧
      strContains (lower s) "range(" = true))
    (hitem : strStartsWith (pyStrip (lower s)) "activedocument.item(" = false) :
    evalArg [] none false objEval fuel emptyContext (vStr s) treat =
      .ok (tailRes (vStr s) treat) := by
  have hexcel : readFromExcel emptyContext.loadedExcel (pyStr (vStr s)) =
      .ok none := readFromExcel_not_gate none s hgate
  have hunfold : evalArg [] none false objEval fuel emptyContext (vStr s) treat =
      evalArgStr [] none emptyContext fuel
        (fun func =>
          match fuel with
          | 0 => .error .fuelOut
          | fuel' + 1 =>
            evalArg [] none false objEval fuel' emptyContext func true)
        s treat := by
    simp only [evalArg]
    rw [hexcel]
    rfl
  rw [hunfold]
  exact evalArgStr_empty fuel _ s treat hitem

/-- C3 (amended): on a context where every lookup misses (the empty
context), with the Excel-read pattern and the `activedocument.item(`
metadata accessor excluded, `eval_arg` on a string returns `"NULL"` when
`treat_as_var_name` is set and the text merely *begins* with an
identifier character (the regex is matched by `re.match`, anchored only
at the start of the text), and otherwise returns the input string
unchanged; a lookup failure is never raised to the caller, and in
particular `eval_arg("a.b.c", ctx)` on an empty context returns
`"a.b.c"` unchanged. -/
theorem claim_C3_eval_arg_fallback (objEval : Value → Value) (fuel : Nat)
    (s : String) (treat : Bool)
    (hgate : ¬(strContains (lower s) "thisworkbook." = true ∧
      strContains (lower s) "sheets(" = true ∧
      strContains (lower s) "range(" = true))
    (hitem : strStartsWith (pyStrip (lower s)) "activedocument.item(" = false) :
    evalArg [] none false objEval fuel emptyContext (vStr s) treat =
      .ok (if treat = true ∧ identHead s = true then vStr "NULL" else vStr s) ∧
    evalArg [] none false objEval 5 emptyContext (vStr "a.b.c") false =
      .ok (vStr "a.b.c") := by
  constructor
  · rw [evalArg_empty_fallback objEval fuel s treat hgate hitem]
    rfl
  · rfl

/-- C3 witness: `eval_arg("a.b.c", ctx)` on the empty context falls all
the way through and returns the text unchanged; with
`treat_as_var_name=True` it returns `"NULL"`. -/
theorem claim_C3_witness :
    evalArg [] none false (fun v => v) 5 emptyContext (vStr "a.b.c") false =
      .ok (vStr "a.b.c") ∧
    evalArg [] none false (fun v => v) 5 emptyContext (vStr "a.b.c") true =
      .ok (vStr "NULL") := by
  have h1 := claim_C3_eval_arg_fallback (fun v => v) 5 "a.b.c" false
    (by decide) (by decide)
  have h2 := claim_C3_eval_arg_fallback (fun v => v) 5 "a.b.c" true
    (by decide) (by decide)
  exact ⟨h1.2, by rw [h2.1]; rfl⟩

end VM
